import Mathlib

/-!
Verification development for the Archiver for Google Photos pipeline
(`gparch.py`).  The Python source is shallowly embedded: the filesystem is a
finite association list from paths to a version counter (bumped by in-place
metadata writes), the sqlite `media` table is a list of records in insertion
order (an `INSERT` appends, a `SELECT ... fetchone` returns the first match),
and the thread pool plus its draining loop is serialized: each task runs its
worker and the resulting completion is consumed immediately.  Exceptions and
network behaviour are supplied by explicit per-task behaviour records.
Directories and files share one namespace (both `os.path.exists` and
`os.path.isfile` are modelled as presence in the filesystem map), and
`os.path.abspath` is the identity (paths are taken to be absolute already).
-/

namespace GParch

/-- Filesystem: list of (path, version).  The version counts in-place
rewrites of the file's bytes; creation starts at version 0. -/
abbrev FS := List (String × Nat)

/-- `os.path.exists` / `os.path.isfile`: does a path exist? -/
def fsHas (fs : FS) (p : String) : Bool :=
  fs.any (fun e => e.1 == p)

/-- Creating a fresh file or directory at `p`. -/
def fsCreate (fs : FS) (p : String) : FS :=
  (p, 0) :: fs

/-- Rewriting the bytes of an existing file in place (version bump). -/
def fsBump (fs : FS) (p : String) : FS :=
  fs.map (fun e => if e.1 == p then (e.1, e.2 + 1) else e)

/-- The candidate directory name `auto_mkdir` tries at a given instance:
the bare path for instance 0, otherwise `path ++ " (instance)"`. -/
def mkdirCand (path : String) (inst : Nat) : String :=
  if inst = 0 then path else path ++ " (" ++ toString inst ++ ")"

/-- `auto_mkdir(path, instance)` from gparch.py lines 63-77: recursively
appends `" (n)"` until the directory name is unused, then creates it and
returns it (`os.path.abspath` modelled as the identity).  The Python
recursion is unbounded; the embedding carries explicit fuel and returns
`none` on exhaustion. -/
def auto_mkdir (fs : FS) (path : String) : Nat → Nat → Option (FS × String)
  | _, 0 => none
  | inst, fuel + 1 =>
    let new_path := mkdirCand path inst
    if fsHas fs new_path then auto_mkdir fs path (inst + 1) fuel
    else some (fsCreate fs new_path, new_path)

/-- Index of the first occurrence of `c`, or `none`. -/
def firstIdx (c : Char) : List Char → Option Nat
  | [] => none
  | x :: rest => if x == c then some 0 else (firstIdx c rest).map (· + 1)

/-- Python `str.rfind` for a single character: highest index holding `c`,
or `-1` when absent. -/
def pyRfind (l : List Char) (c : Char) : Int :=
  match firstIdx c l.reverse with
  | some j => (l.length : Int) - 1 - j
  | none => -1

/-- Python slice `s[:i]` (start omitted), including negative-index wrap. -/
def pySliceTo (l : List Char) (i : Int) : List Char :=
  if i < 0 then l.take (l.length - min l.length i.natAbs) else l.take i.toNat

/-- Python slice `s[i:]` (stop omitted), including negative-index wrap. -/
def pySliceFrom (l : List Char) (i : Int) : List Char :=
  if i < 0 then l.drop (l.length - min l.length i.natAbs) else l.drop i.toNat

/-- The suffixed candidate `auto_filename` builds for `instance > 0`:
`path[:extension_index] + " (" + str(instance) + ")" + path[extension_index:]`
where `extension_index = path.rfind(".")` (gparch.py lines 85-89). -/
def afSuffix (path : String) (inst : Nat) : String :=
  let l := path.data
  let ei := pyRfind l '.'
  String.mk (pySliceTo l ei ++ (" (" ++ toString inst ++ ")").data ++ pySliceFrom l ei)

/-- `auto_filename(path, instance)` from gparch.py lines 80-96: recursively
finds an available file name, inserting `" (n)"` at the extension position
when the candidate already exists.  Fuel replaces the unbounded recursion. -/
def auto_filename (fs : FS) (path : String) : Nat → Nat → Option String
  | _, 0 => none
  | inst, fuel + 1 =>
    let new_path := if inst = 0 then path else afSuffix path inst
    if fsHas fs new_path then auto_filename fs path (inst + 1) fuel
    else some new_path

/-! ## Pagination (`list_media_items`, gparch.py lines 442-465)

One response of the listing endpoint: a dict that may hold a `mediaItems`
list and may hold a `nextPageToken`.  A wholly falsy response (Python `{}`
or `None`) is modelled as `none`. -/

/-- One page of the listing response. -/
structure Page (α : Type) where
  mediaItems : Option (List α)
  nextPageToken : Option String

/-- The `while True` accumulation loop: add the current page's items if
present; if a token is present consume the next response (a falsy response
contributes nothing and also carries no token, ending the loop), otherwise
break. -/
def loopPages {α : Type} : Page α → List (Option (Page α)) → List α
  | ⟨items, none⟩, _ => items.getD []
  | ⟨items, some _⟩, [] => items.getD []
  | ⟨items, some _⟩, none :: _ => items.getD []
  | ⟨items, some _⟩, some q :: rs => items.getD [] ++ loopPages q rs

/-- `PhotosAccount.list_media_items`, driven by the list of responses the
server returns to the successive requests.  A falsy first response returns
the empty collection at once (`if not request: return {}`). -/
def list_media_items {α : Type} : List (Option (Page α)) → List α
  | [] => []
  | none :: _ => []
  | some p :: rs => loopPages p rs

/-- Builds the response sequence of a well-formed paged collection: every
page except the last carries a continuation token, the last omits it. -/
def mkResponses {α : Type} : List (List α) → List (Option (Page α))
  | [] => []
  | [items] => [some ⟨some items, none⟩]
  | items :: rest => some ⟨some items, some ""⟩ :: mkResponses rest

/-! ## Data model -/

/-- A raw remote media item as the listing endpoint returns it.  Every key
of the Python dict that `process_media_items` may touch is an `Option`;
reading an absent key raises `KeyError`, modelled by `getKey` below.
`creationTime` stands for `item["mediaItems"=>"mediaMetadata"]["creationTime"]`
(the two-level dict access is collapsed into one optional field). -/
structure RawItem where
  id : Option String
  filename : Option String
  mimeType : Option String
  baseUrl : Option String
  description : Option String
  creationTime : Option String
deriving DecidableEq

/-- A download task: the 6-tuple `(uuid, album_uuid, url, path, description,
creation_time)` handed to `download_media_item`. -/
structure Entry where
  uuid : String
  album_uuid : Option String
  url : String
  path : String
  description : Option String
  creation_time : Option String
deriving DecidableEq

/-- One row of the sqlite `media` table: `(uuid, path, album_uuid)`. -/
structure MediaRec where
  uuid : String
  path : String
  album_uuid : Option String
deriving DecidableEq

/-- The mutable state a run threads through: the filesystem, the `media`
table in insertion order, and the `self.downloads` counter. -/
structure St where
  fs : FS
  media : List MediaRec
  downloads : Nat
deriving DecidableEq

/-- `SELECT * FROM media WHERE uuid=? ... fetchone()`: first row matching,
in insertion order. -/
def select_media_item (index : List MediaRec) (uuid : String) : Option MediaRec :=
  index.find? (fun r => r.uuid == uuid)

/-- `INSERT INTO media VALUES (?,?,?)`: appends a row; no uniqueness check. -/
def insert_media_item (index : List MediaRec) (uuid path : String)
    (album_uuid : Option String) : List MediaRec :=
  index ++ [⟨uuid, path, album_uuid⟩]

/-- Python dict read `item[key]`: raises `KeyError` when absent. -/
def getKey {α : Type} : Option α → Except Unit α
  | some v => Except.ok v
  | none => Except.error ()

/-- Helper for `pyIn`: does `needle` occur as a contiguous run of `hay`? -/
def pyInAux (needle : List Char) : List Char → Bool
  | [] => needle == []
  | c :: rest => needle.isPrefixOf (c :: rest) || pyInAux needle rest

/-- Python `needle in haystack` on strings: substring containment. -/
def pyIn (needle hay : String) : Bool :=
  pyInAux needle.data hay.data

/-- Python truthiness of an optional string (`None` and `""` are falsy). -/
def pyTruthy : Option String → Bool
  | none => false
  | some s => !(s == "")

/-! ## Worker environment

Per-task behaviour of the outside world (network, filesystem errors,
the libxmp library): which calls succeed and which raise. -/

/-- Behaviour of the `requests.get` call for one task. -/
inductive FetchBeh
  | raises
  | status (code : Nat)
deriving DecidableEq

/-- Behaviour of the libxmp metadata section for one task. -/
structure MetaBeh where
  /-- `libxmp.XMPFiles(...)` constructs without raising. -/
  openOk : Bool
  /-- `xmpfile.get_xmp()` yields a parseable container (else a fresh
  `XMPMeta` is created from scratch; that is not an error). -/
  getOk : Bool
  /-- Building the properties (`set_property`, `fromisoformat`) raises. -/
  setRaises : Bool
  /-- `xmpfile.can_put_xmp(xmp)` answers true. -/
  canPut : Bool
  /-- `put_xmp`/`close_file` of the in-place update raises. -/
  putRaises : Bool
  /-- Writing the `.xmp` sidecar raises. -/
  sidecarRaises : Bool
deriving DecidableEq

/-- Behaviour of the whole environment for one task. -/
structure Beh where
  fetch : FetchBeh
  writeRaises : Bool
  m : MetaBeh
deriving DecidableEq

/-- The terminal result of one worker invocation, one constructor per
return point of `download_media_item`:
`downloaded` is the tuple return (line 257), `alreadyPresent` the
`return False` when the file exists (line 264), `statusFailed` the implicit
`None` when the status is not 200, and `excFailed` the `return False` of
the outer exception handler (line 268). -/
inductive Outcome
  | downloaded (uuid path : String) (album_uuid : Option String)
  | alreadyPresent
  | statusFailed
  | excFailed
deriving DecidableEq

/-- Whether the in-place metadata update fully succeeds: an `XMPFiles`
handle exists, `can_put_xmp` agrees, and `put_xmp`/`close_file` run clean. -/
def inPlaceOk (m : MetaBeh) : Bool :=
  m.openOk && m.canPut && !m.putRaises

/-- What the metadata section did to the filesystem. -/
inductive MetaResult
  | inPlace
  | sidecar
  | nothingDone
deriving DecidableEq

/-- The metadata-embedding section of the worker (gparch.py lines 216-254):
open or create a container, set the properties, try the in-place write,
fall back to the `path ++ ".xmp"` sidecar, and swallow every exception. -/
def embedMetadata (m : MetaBeh) (fs : FS) (path : String) : FS × MetaResult :=
  if m.setRaises then (fs, MetaResult.nothingDone)
  else if inPlaceOk m then (fsBump fs path, MetaResult.inPlace)
  else if m.sidecarRaises then (fs, MetaResult.nothingDone)
  else (fsCreate fs (path ++ ".xmp"), MetaResult.sidecar)

/-- `PhotosAccount.download_media_item` (gparch.py lines 208-268).  Returns
the updated state, the outcome, and the number of network fetches issued.
The fuel of the internal `auto_filename` call is `fs.length + 1`; the
`none` branch is unreachable because the step-1 guard already found the
target path free, making the instance-0 candidate available. -/
def download_media_item (b : Beh) (st : St) (e : Entry) : St × Outcome × Nat :=
  if fsHas st.fs e.path then (st, Outcome.alreadyPresent, 0)
  else
    match b.fetch with
    | FetchBeh.raises => (st, Outcome.excFailed, 1)
    | FetchBeh.status code =>
      if code = 200 then
        match auto_filename st.fs e.path 0 (st.fs.length + 1) with
        | none => (st, Outcome.excFailed, 1)
        | some p =>
          if b.writeRaises then
            ({ st with fs := fsCreate st.fs p }, Outcome.excFailed, 1)
          else
            let st2 : St := { st with fs := fsCreate st.fs p }
            if pyTruthy e.description || e.creation_time.isSome then
              let r := embedMetadata b.m st2.fs p
              ({ st2 with fs := r.1, downloads := st2.downloads + 1 },
                Outcome.downloaded e.uuid p e.album_uuid, 1)
            else
              ({ st2 with downloads := st2.downloads + 1 },
                Outcome.downloaded e.uuid p e.album_uuid, 1)
      else (st, Outcome.statusFailed, 1)

/-- The body of the pool-draining loop (gparch.py lines 274-283): a truthy
completion is inserted into the `media` table, everything else is skipped. -/
def drainStep (st : St) (o : Outcome) : St :=
  match o with
  | Outcome.downloaded u p a => { st with media := insert_media_item st.media u p a }
  | _ => st

/-- `PhotosAccount.download` (gparch.py lines 270-283): run the worker over
each task and feed every completion to the draining loop.  The thread pool
is serialized: tasks run in list order, each completion consumed at once.
Returns the final state, the completion trace, and the total fetch count. -/
def download (beh : Entry → Beh) : St → List Entry → St × List Outcome × Nat
  | st, [] => (st, [], 0)
  | st, e :: rest =>
    let r := download_media_item (beh e) st e
    let w := download beh (drainStep r.1 r.2.1) rest
    (w.1, r.2.1 :: w.2.1, r.2.2 + w.2.2)

/-- `PhotosAccount.process_media_items` (gparch.py lines 307-354): per item,
look the id up in the `media` table (the recorded path is authoritative;
otherwise the path is `save_directory / sanitize(filename)`), default the
description to `None`, and emit a task for image and video MIME types.  Any
absent required key raises `KeyError` (`Except.error ()`), aborting the
whole call, exactly as the Python loop would. -/
def process_media_items (sanitize : String → String) (index : List MediaRec)
    (media_items : List RawItem) (save_directory : String)
    (album_uuid : Option String) : Except Unit (List Entry) :=
  match media_items with
  | [] => Except.ok []
  | item :: rest =>
    match getKey item.id with
    | Except.error _ => Except.error ()
    | Except.ok i =>
      match
        (match select_media_item index i with
         | none =>
           match getKey item.filename with
           | Except.error _ => Except.error ()
           | Except.ok fn => Except.ok (save_directory ++ "/" ++ sanitize fn)
         | some r => (Except.ok r.path : Except Unit String)) with
      | Except.error _ => Except.error ()
      | Except.ok item_path =>
        match getKey item.mimeType with
        | Except.error _ => Except.error ()
        | Except.ok m =>
          match
            (if pyIn "image" m then
               match getKey item.baseUrl with
               | Except.error _ => Except.error ()
               | Except.ok b =>
                 match getKey item.creationTime with
                 | Except.error _ => Except.error ()
                 | Except.ok ct =>
                   Except.ok (some (Entry.mk i album_uuid (b ++ "=d") item_path
                     item.description (some ct)))
             else if pyIn "video" m then
               match getKey item.baseUrl with
               | Except.error _ => Except.error ()
               | Except.ok b =>
                 match getKey item.creationTime with
                 | Except.error _ => Except.error ()
                 | Except.ok ct =>
                   Except.ok (some (Entry.mk i album_uuid (b ++ "=dv") item_path
                     item.description (some ct)))
             else (Except.ok none : Except Unit (Option Entry))) with
          | Except.error _ => Except.error ()
          | Except.ok head =>
            match process_media_items sanitize index rest save_directory album_uuid with
            | Except.error _ => Except.error ()
            | Except.ok tail =>
              match head with
              | some e => Except.ok (e :: tail)
              | none => Except.ok tail

/-- One collection run of the orchestrator: process the raw items against
the current index, then download the resulting task list
(`download_library` / `download_favorites` / `download_single_album`). -/
def runCollection (sanitize : String → String) (beh : Entry → Beh)
    (items : List RawItem) (dir : String) (album_uuid : Option String)
    (st : St) : Except Unit (St × List Outcome × Nat) :=
  (process_media_items sanitize st.media items dir album_uuid).map
    (fun tasks => download beh st tasks)

/-! ## Derived predicates and helper definitions used in the statements -/

/-- Whether the worker enters the metadata section:
`if description or creation_time is not None`. -/
def metaWanted (e : Entry) : Bool :=
  pyTruthy e.description || e.creation_time.isSome

/-- The filesystem after a successful fetch-and-write of task `e`
(including whatever the metadata section did). -/
def postFs (b : Beh) (e : Entry) (fs : FS) : FS :=
  if metaWanted e then (embedMetadata b.m (fsCreate fs e.path) e.path).1
  else fsCreate fs e.path

/-- Every stage of metadata embedding fails: either building the container
raises, or the in-place write is unavailable/raises and the sidecar write
raises too. -/
def metaAllFail (m : MetaBeh) : Bool :=
  m.setRaises || (!inPlaceOk m && m.sidecarRaises)

/-- A benign environment for one task: the fetch returns status 200 and the
streaming write does not raise (the metadata behaviour is unconstrained). -/
def Benign (b : Beh) : Prop :=
  b.fetch = FetchBeh.status 200 ∧ b.writeRaises = false

/-- The pipeline invariant of claim C2: at most one media record per uuid,
and every record's path holds a file. -/
def PipeInv (st : St) : Prop :=
  (st.media.map MediaRec.uuid).Nodup ∧
  ∀ r ∈ st.media, fsHas st.fs r.path = true

/-- A raw item is well formed with respect to an index: it has an id and a
MIME type, a filename whenever it is not yet recorded, and a base URL and
creation time whenever its MIME type is image or video. -/
def WFItem (index : List MediaRec) (item : RawItem) : Prop :=
  ∃ i m, item.id = some i ∧ item.mimeType = some m ∧
    (select_media_item index i = none → item.filename.isSome = true) ∧
    ((pyIn "image" m || pyIn "video" m) = true →
      item.baseUrl.isSome = true ∧ item.creationTime.isSome = true)

/-- The task a single well-formed raw item contributes (`none` when its
MIME type is neither image nor video): the per-item semantics of
`process_media_items`, stated for comparison with the monadic loop. -/
def taskOf (sanitize : String → String) (index : List MediaRec)
    (save_directory : String) (album_uuid : Option String)
    (item : RawItem) : Option Entry :=
  match item.id with
  | none => none
  | some i =>
    let item_path :=
      match select_media_item index i with
      | none => save_directory ++ "/" ++ sanitize (item.filename.getD "")
      | some r => r.path
    match item.mimeType with
    | none => none
    | some m =>
      if pyIn "image" m then
        some (Entry.mk i album_uuid (item.baseUrl.getD "" ++ "=d") item_path
          item.description (some (item.creationTime.getD "")))
      else if pyIn "video" m then
        some (Entry.mk i album_uuid (item.baseUrl.getD "" ++ "=dv") item_path
          item.description (some (item.creationTime.getD "")))
      else none

/-! ## Basic lemmas about the filesystem model -/

theorem fsHas_create_self (fs : FS) (p : String) : fsHas (fsCreate fs p) p = true := by
  simp [fsHas, fsCreate]

theorem fsHas_create (fs : FS) (p q : String) :
    fsHas (fsCreate fs p) q = (p == q || fsHas fs q) := by
  simp [fsHas, fsCreate]

theorem fsHas_bump (fs : FS) (p q : String) : fsHas (fsBump fs p) q = fsHas fs q := by
  induction fs with
  | nil => rfl
  | cons e t ih =>
    simp only [fsBump, List.map_cons, fsHas, List.any_cons] at ih ⊢
    by_cases h : e.1 == p
    · simp only [h, if_true, ih]
    · simp only [h, if_false, Bool.false_eq_true, ih]

/-! ## Pagination lemmas and claim C5 -/

theorem loopPages_none {α : Type} (first : List α) (rs : List (Option (Page α))) :
    loopPages (Page.mk (some first) none) rs = first := by
  cases rs with
  | nil => rfl
  | cons r rs => cases r <;> rfl

theorem loopPages_cons {α : Type} (first : List α) (t : String) (q : Page α)
    (rs : List (Option (Page α))) :
    loopPages (Page.mk (some first) (some t)) (some q :: rs) = first ++ loopPages q rs := rfl

theorem loopPages_mkResponses {α : Type} :
    ∀ (pss : List (List α)) (first : List α), pss ≠ [] →
      loopPages (Page.mk (some first) (some "")) (mkResponses pss)
        = first ++ pss.flatten
  | [], _, h => absurd rfl h
  | [b], first, _ => by
    simp [mkResponses, loopPages_cons, loopPages_none]
  | b :: c :: t, first, _ => by
    have ih := loopPages_mkResponses (c :: t) b (by simp)
    simp only [mkResponses] at ih ⊢
    rw [loopPages_cons, ih]
    simp

/-- **C5**: `fetchAll` accumulates each page's items in page order until a
page omits the continuation cursor, returning the full concatenation of the
pages, and a first response that is entirely absent or empty yields the
empty result immediately. -/
theorem c5_pagination_concat :
    (∀ (α : Type) (pss : List (List α)),
       list_media_items (mkResponses pss) = pss.flatten) ∧
    (∀ (α : Type) (rs : List (Option (Page α))),
       list_media_items (none :: rs) = []) := by
  constructor
  · intro α pss
    match pss with
    | [] => rfl
    | [b] => simp [mkResponses, list_media_items, loopPages_none]
    | b :: c :: t =>
      have h := loopPages_mkResponses (c :: t) b (by simp)
      simp only [mkResponses, list_media_items] at h ⊢
      rw [h]
      simp
  · intro α rs
    rfl

/-! ## `auto_mkdir` lemmas and claim C6 -/

theorem string_ne_self_append_paren (s : String) : s ≠ s ++ " (1)" := by
  intro h
  have h2 := congrArg String.length h
  rw [String.length_append] at h2
  have : String.length " (1)" = 4 := by decide
  omega

/-- Soundness of `auto_mkdir`: whenever it returns, the returned path is the
first free candidate at or after the starting instance, and it is created. -/
theorem auto_mkdir_sound (fs : FS) (path : String) :
    ∀ (fuel inst : Nat) (out : FS × String),
      auto_mkdir fs path inst fuel = some out →
      out.1 = fsCreate fs out.2 ∧ fsHas fs out.2 = false ∧
      ∃ n, inst ≤ n ∧ out.2 = mkdirCand path n ∧
        ∀ k, inst ≤ k → k < n → fsHas fs (mkdirCand path k) = true
  | 0, inst, out => by simp [auto_mkdir]
  | fuel + 1, inst, out => by
    intro h
    rw [auto_mkdir] at h
    by_cases hc : fsHas fs (mkdirCand path inst) = true
    · rw [if_pos hc] at h
      obtain ⟨h1, h2, n, hn, hcand, hall⟩ := auto_mkdir_sound fs path fuel (inst + 1) out h
      refine ⟨h1, h2, n, by omega, hcand, ?_⟩
      intro k hk1 hk2
      rcases Nat.eq_or_lt_of_le hk1 with rfl | hlt
      · exact hc
      · exact hall k hlt hk2
    · rw [if_neg hc] at h
      obtain rfl : (fsCreate fs (mkdirCand path inst), mkdirCand path inst) = out :=
        Option.some.injEq _ _ ▸ h
      exact ⟨rfl, Bool.eq_false_iff.mpr (fun hx => hc hx), inst, Nat.le_refl _, rfl,
        fun k hk1 hk2 => absurd (Nat.lt_of_le_of_lt hk1 hk2) (Nat.lt_irrefl _)⟩

/-- **C6**: `ensureDirectory` (`auto_mkdir`) returns the base path, creating
it, when it is absent; otherwise it returns (and creates) the first path of
the form `basePath ++ " (n)"` (n = 1, 2, ...) that does not exist.  Hence
two album titles sanitizing to the identical string yield two distinct
directories, the second suffixed `" (1)"`. -/
theorem c6_ensureDirectory_spec :
    (∀ (fs : FS) (path : String) (fuel : Nat) (fs2 : FS) (p : String),
       auto_mkdir fs path 0 fuel = some (fs2, p) →
       fs2 = fsCreate fs p ∧ fsHas fs p = false ∧
       ((fsHas fs path = false ∧ p = path) ∨
        (fsHas fs path = true ∧
         ∃ n, 1 ≤ n ∧ p = path ++ " (" ++ toString n ++ ")" ∧
           ∀ k, 1 ≤ k → k < n → fsHas fs (path ++ " (" ++ toString k ++ ")") = true))) ∧
    (∀ (fs : FS) (base : String) (fuel : Nat),
       fsHas fs base = false → fsHas fs (base ++ " (1)") = false →
       auto_mkdir fs base 0 (fuel + 1) = some (fsCreate fs base, base) ∧
       auto_mkdir (fsCreate fs base) base 0 (fuel + 2)
         = some (fsCreate (fsCreate fs base) (base ++ " (1)"), base ++ " (1)") ∧
       base ≠ base ++ " (1)") := by
  constructor
  · intro fs path fuel fs2 p h
    obtain ⟨h1, h2, n, _, hcand, hall⟩ := auto_mkdir_sound fs path fuel 0 (fs2, p) h
    refine ⟨h1, h2, ?_⟩
    match n with
    | 0 =>
      left
      have hp : p = path := by simpa [mkdirCand] using hcand
      exact ⟨hp ▸ h2, hp⟩
    | n + 1 =>
      right
      have h0 : fsHas fs (mkdirCand path 0) = true := hall 0 (Nat.le_refl _) (by omega)
      simp only [mkdirCand, if_pos rfl] at h0
      refine ⟨h0, n + 1, by omega, ?_, ?_⟩
      · simpa [mkdirCand] using hcand
      · intro k hk1 hk2
        have := hall k (by omega) hk2
        simpa [mkdirCand, Nat.pos_iff_ne_zero.mp hk1] using this
  · intro fs base fuel hb h1
    have hcand0 : mkdirCand base 0 = base := by simp [mkdirCand]
    have hcand1 : mkdirCand base 1 = base ++ " (1)" := by
      have h4 : toString (1 : Nat) = "1" := by decide
      simp only [mkdirCand, if_neg (by omega : ¬(1 : Nat) = 0), h4,
        String.append_assoc]
      rw [show "1" ++ ")" = "1)" from by decide, show " (" ++ "1)" = " (1)" from by decide]
    refine ⟨?_, ?_, string_ne_self_append_paren base⟩
    · rw [auto_mkdir, hcand0, hb]
      simp
    · rw [auto_mkdir, hcand0, fsHas_create_self, if_pos rfl]
      rw [auto_mkdir, hcand1]
      have : fsHas (fsCreate fs base) (base ++ " (1)") = false := by
        rw [fsHas_create, h1]
        simp [string_ne_self_append_paren base]
      rw [this]
      simp

/-- Witness for C6 at a concrete input: creating the same sanitized album
title twice yields `"A"` and then `"A (1)"`. -/
theorem c6_ensureDirectory_spec_witness :
    auto_mkdir ([] : FS) "A" 0 1 = some (fsCreate [] "A", "A") ∧
    auto_mkdir (fsCreate [] "A") "A" 0 2
      = some (fsCreate (fsCreate [] "A") ("A" ++ " (1)"), "A" ++ " (1)") ∧
    "A" ≠ "A" ++ " (1)" := by
  have h := c6_ensureDirectory_spec.2 [] "A" 0 (by decide) (by decide)
  exact ⟨h.1, h.2.1, h.2.2⟩

/-! ## `auto_filename` suffix position and claim C10 -/

theorem firstIdx_eq_none (c : Char) :
    ∀ (l : List Char), c ∉ l → firstIdx c l = none
  | [], _ => rfl
  | x :: rest, h => by
    have hx : ¬((x == c) = true) := by
      simp only [beq_iff_eq]
      intro hxc
      exact h (hxc ▸ List.mem_cons_self x rest)
    rw [firstIdx, if_neg hx,
      firstIdx_eq_none c rest (fun hm => h (List.mem_cons_of_mem _ hm))]
    rfl

theorem firstIdx_append (c : Char) (r : List Char) :
    ∀ (l : List Char), c ∉ l → firstIdx c (l ++ c :: r) = some l.length
  | [], _ => by simp [firstIdx]
  | x :: rest, h => by
    have hx : ¬((x == c) = true) := by
      simp only [beq_iff_eq]
      intro hxc
      exact h (hxc ▸ List.mem_cons_self x rest)
    rw [List.cons_append, firstIdx, if_neg hx,
      firstIdx_append c r rest (fun hm => h (List.mem_cons_of_mem _ hm))]
    rfl

theorem pyRfind_eq_neg_one (l : List Char) (c : Char) (h : c ∉ l) :
    pyRfind l c = -1 := by
  rw [pyRfind, firstIdx_eq_none c l.reverse (by simpa using h)]

theorem pyRfind_append (l₁ l₂ : List Char) (h : '.' ∉ l₂) :
    pyRfind (l₁ ++ '.' :: l₂) '.' = (l₁.length : Int) := by
  have hrev : (l₁ ++ '.' :: l₂).reverse = l₂.reverse ++ '.' :: l₁.reverse := by
    simp
  rw [pyRfind, hrev, firstIdx_append '.' l₁.reverse l₂.reverse (by simpa using h)]
  simp only [List.length_append, List.length_cons, List.length_reverse]
  push_cast
  omega

theorem pySliceTo_neg_one (l : List Char) (h : l ≠ []) :
    pySliceTo l (-1) = l.take (l.length - 1) := by
  have hmin : min l.length (Int.natAbs (-1)) = 1 := by
    have : 0 < l.length := List.length_pos.mpr h
    simp only [Int.natAbs_neg, Int.natAbs_one]
    omega
  rw [pySliceTo, if_pos (by norm_num), hmin]

theorem pySliceFrom_neg_one (l : List Char) (h : l ≠ []) :
    pySliceFrom l (-1) = l.drop (l.length - 1) := by
  have hmin : min l.length (Int.natAbs (-1)) = 1 := by
    have : 0 < l.length := List.length_pos.mpr h
    simp only [Int.natAbs_neg, Int.natAbs_one]
    omega
  rw [pySliceFrom, if_pos (by norm_num), hmin]

theorem pySliceTo_nonneg (l : List Char) (j : Nat) :
    pySliceTo l (j : Int) = l.take j := by
  rw [pySliceTo, if_neg (by omega), Int.toNat_natCast]

theorem pySliceFrom_nonneg (l : List Char) (j : Nat) :
    pySliceFrom l (j : Int) = l.drop j := by
  rw [pySliceFrom, if_neg (by omega), Int.toNat_natCast]

/-- **C10**: for a candidate path with no `.` character, `auto_filename`
inserts the `" (n)"` suffix before the final character of the path (the
extension search returns slot `-1`) rather than appending it at the end;
in particular the first retry for an existing dotless path is the path with
`" (1)"` inserted before its last character.  For a path with an extension
the suffix lands before the (last) dot. -/
theorem c10_auto_filename_insert_position :
    (∀ (s : String) (n : Nat), '.' ∉ s.data → s.data ≠ [] →
       afSuffix s n
         = String.mk (s.data.take (s.data.length - 1)
             ++ (" (" ++ toString n ++ ")").data
             ++ s.data.drop (s.data.length - 1))) ∧
    (∀ (fs : FS) (s : String) (fuel : Nat),
       fsHas fs s = true → fsHas fs (afSuffix s 1) = false →
       auto_filename fs s 0 (fuel + 2) = some (afSuffix s 1)) ∧
    (∀ (l₁ l₂ : List Char) (n : Nat), '.' ∉ l₂ →
       afSuffix (String.mk (l₁ ++ '.' :: l₂)) n
         = String.mk (l₁ ++ (" (" ++ toString n ++ ")").data ++ '.' :: l₂)) := by
  refine ⟨?_, ?_, ?_⟩
  · intro s n hd hne
    rw [afSuffix]
    rw [pyRfind_eq_neg_one s.data '.' hd, pySliceTo_neg_one s.data hne,
      pySliceFrom_neg_one s.data hne]
  · intro fs s fuel h1 h2
    rw [auto_filename, if_pos (by simpa using h1)]
    rw [auto_filename, if_neg (by simp [h2]), if_neg (by omega)]
  · intro l₁ l₂ n hd
    rw [afSuffix]
    have hdata : (String.mk (l₁ ++ '.' :: l₂)).data = l₁ ++ '.' :: l₂ := rfl
    rw [hdata, pyRfind_append l₁ l₂ hd, pySliceTo_nonneg, pySliceFrom_nonneg,
      List.take_left, List.drop_left]

/-- Witness for C10 at concrete inputs: `"ab"` (no dot, already existing)
gains its suffix before the final character, giving `"a (1)b"`, and
`"f.jpg"` gains it before the extension. -/
theorem c10_auto_filename_insert_position_witness :
    afSuffix "ab" 1
      = String.mk ("ab".data.take ("ab".data.length - 1)
          ++ (" (" ++ toString 1 ++ ")").data
          ++ "ab".data.drop ("ab".data.length - 1)) ∧
    auto_filename [("ab", 0)] "ab" 0 2 = some (afSuffix "ab" 1) ∧
    afSuffix (String.mk ("f".data ++ '.' :: "jpg".data)) 1
      = String.mk ("f".data ++ (" (" ++ toString 1 ++ ")").data ++ '.' :: "jpg".data) := by
  refine ⟨?_, ?_, ?_⟩
  · exact c10_auto_filename_insert_position.1 "ab" 1 (by decide) (by decide)
  · exact c10_auto_filename_insert_position.2.1 [("ab", 0)] "ab" 0 (by decide) (by decide)
  · exact c10_auto_filename_insert_position.2.2 "f".data "jpg".data 1 (by decide)

/-! ## Worker-level lemmas -/

theorem auto_filename_free (fs : FS) (p : String) (n : Nat) (h : fsHas fs p = false) :
    auto_filename fs p 0 (n + 1) = some p := by
  rw [auto_filename]
  simp [h]

theorem w_guard (b : Beh) (st : St) (e : Entry) (h : fsHas st.fs e.path = true) :
    download_media_item b st e = (st, Outcome.alreadyPresent, 0) := by
  rw [download_media_item, if_pos h]

theorem w_raises (b : Beh) (st : St) (e : Entry) (h : fsHas st.fs e.path = false)
    (hb : b.fetch = FetchBeh.raises) :
    download_media_item b st e = (st, Outcome.excFailed, 1) := by
  rw [download_media_item, if_neg (by simp [h]), hb]

theorem w_non200 (b : Beh) (st : St) (e : Entry) (c : Nat)
    (h : fsHas st.fs e.path = false) (hb : b.fetch = FetchBeh.status c)
    (hc : c ≠ 200) :
    download_media_item b st e = (st, Outcome.statusFailed, 1) := by
  rw [download_media_item, if_neg (by simp [h]), hb]
  simp [hc]

theorem w_writeRaises (b : Beh) (st : St) (e : Entry)
    (h : fsHas st.fs e.path = false) (hb : b.fetch = FetchBeh.status 200)
    (hw : b.writeRaises = true) :
    download_media_item b st e
      = ({ st with fs := fsCreate st.fs e.path }, Outcome.excFailed, 1) := by
  rw [download_media_item, if_neg (by simp [h]), hb]
  simp only [if_pos rfl, auto_filename_free st.fs e.path st.fs.length h, hw, if_true]

theorem w_success (b : Beh) (st : St) (e : Entry)
    (h : fsHas st.fs e.path = false) (hb : b.fetch = FetchBeh.status 200)
    (hw : b.writeRaises = false) :
    download_media_item b st e
      = ({ st with fs := postFs b e st.fs, downloads := st.downloads + 1 },
         Outcome.downloaded e.uuid e.path e.album_uuid, 1) := by
  rw [download_media_item, if_neg (by simp [h]), hb]
  simp only [if_pos rfl, auto_filename_free st.fs e.path st.fs.length h, hw,
    Bool.false_eq_true, if_false]
  by_cases hm : metaWanted e = true
  · have hm2 : (pyTruthy e.description || e.creation_time.isSome) = true := hm
    simp [postFs, hm, hm2]
  · have hm2 : (pyTruthy e.description || e.creation_time.isSome) = false :=
      Bool.eq_false_iff.mpr hm
    simp [postFs, hm, hm2]

/-- Exhaustive case analysis of one worker invocation. -/
theorem w_cases (b : Beh) (st : St) (e : Entry) :
    (fsHas st.fs e.path = true
      ∧ download_media_item b st e = (st, Outcome.alreadyPresent, 0)) ∨
    (fsHas st.fs e.path = false ∧
      ((b.fetch = FetchBeh.raises
         ∧ download_media_item b st e = (st, Outcome.excFailed, 1)) ∨
       (∃ c, b.fetch = FetchBeh.status c ∧ c ≠ 200
         ∧ download_media_item b st e = (st, Outcome.statusFailed, 1)) ∨
       (b.fetch = FetchBeh.status 200 ∧ b.writeRaises = true
         ∧ download_media_item b st e
             = ({ st with fs := fsCreate st.fs e.path }, Outcome.excFailed, 1)) ∨
       (b.fetch = FetchBeh.status 200 ∧ b.writeRaises = false
         ∧ download_media_item b st e
             = ({ st with fs := postFs b e st.fs, downloads := st.downloads + 1 },
                Outcome.downloaded e.uuid e.path e.album_uuid, 1)))) := by
  by_cases h : fsHas st.fs e.path = true
  · exact Or.inl ⟨h, w_guard b st e h⟩
  · have h0 : fsHas st.fs e.path = false := Bool.eq_false_iff.mpr h
    refine Or.inr ⟨h0, ?_⟩
    match hb : b.fetch with
    | FetchBeh.raises => exact Or.inl ⟨rfl, w_raises b st e h0 hb⟩
    | FetchBeh.status c =>
      by_cases hc : c = 200
      · subst hc
        by_cases hw : b.writeRaises = true
        · exact Or.inr (Or.inr (Or.inl ⟨rfl, hw, w_writeRaises b st e h0 hb hw⟩))
        · have hw0 : b.writeRaises = false := Bool.eq_false_iff.mpr hw
          exact Or.inr (Or.inr (Or.inr ⟨rfl, hw0, w_success b st e h0 hb hw0⟩))
      · exact Or.inr (Or.inl ⟨c, rfl, hc, w_non200 b st e c h0 hb hc⟩)

theorem embedMetadata_mono (m : MetaBeh) (fs : FS) (p q : String)
    (h : fsHas fs q = true) : fsHas (embedMetadata m fs p).1 q = true := by
  rw [embedMetadata]
  split_ifs <;> simp [fsHas_bump, fsHas_create, h]

theorem postFs_mono (b : Beh) (e : Entry) (fs : FS) (q : String)
    (h : fsHas fs q = true) : fsHas (postFs b e fs) q = true := by
  rw [postFs]
  split_ifs
  · exact embedMetadata_mono _ _ _ _ (by simp [fsHas_create, h])
  · simp [fsHas_create, h]

theorem postFs_self (b : Beh) (e : Entry) (fs : FS) :
    fsHas (postFs b e fs) e.path = true := by
  rw [postFs]
  split_ifs
  · exact embedMetadata_mono _ _ _ _ (fsHas_create_self fs e.path)
  · exact fsHas_create_self fs e.path

theorem w_mono (b : Beh) (st : St) (e : Entry) (q : String)
    (h : fsHas st.fs q = true) :
    fsHas (download_media_item b st e).1.fs q = true := by
  rcases w_cases b st e with ⟨_, heq⟩ |
      ⟨_, ⟨_, heq⟩ | ⟨c, _, _, heq⟩ | ⟨_, _, heq⟩ | ⟨_, _, heq⟩⟩ <;>
    rw [heq] <;> simp [fsHas_create, postFs_mono, h]

theorem w_media (b : Beh) (st : St) (e : Entry) :
    (download_media_item b st e).1.media = st.media := by
  rcases w_cases b st e with ⟨_, heq⟩ |
      ⟨_, ⟨_, heq⟩ | ⟨c, _, _, heq⟩ | ⟨_, _, heq⟩ | ⟨_, _, heq⟩⟩ <;>
    rw [heq]

/-- A `downloaded` outcome names the task's own uuid, path and album, and
implies the step-1 guard found the target free and the file now exists. -/
theorem w_downloaded (b : Beh) (st : St) (e : Entry) (u p : String)
    (a : Option String)
    (h : (download_media_item b st e).2.1 = Outcome.downloaded u p a) :
    u = e.uuid ∧ p = e.path ∧ a = e.album_uuid ∧ fsHas st.fs e.path = false ∧
      fsHas (download_media_item b st e).1.fs e.path = true := by
  rcases w_cases b st e with ⟨_, heq⟩ |
      ⟨hg, ⟨_, heq⟩ | ⟨c, _, _, heq⟩ | ⟨_, _, heq⟩ | ⟨_, _, heq⟩⟩ <;>
    rw [heq] at h
  · simp at h
  · simp at h
  · simp at h
  · simp at h
  · have h2 : Outcome.downloaded e.uuid e.path e.album_uuid = Outcome.downloaded u p a := h
    injection h2 with hu hp ha
    refine ⟨hu.symm, hp.symm, ha.symm, hg, ?_⟩
    rw [heq]
    exact postFs_self b e st.fs

/-! ## Draining-loop and batch-level lemmas -/

theorem drainStep_fs (st : St) (o : Outcome) : (drainStep st o).fs = st.fs := by
  cases o <;> rfl

theorem drainStep_downloads (st : St) (o : Outcome) :
    (drainStep st o).downloads = st.downloads := by
  cases o <;> rfl

theorem drainStep_downloaded (st : St) (u p : String) (a : Option String) :
    drainStep st (Outcome.downloaded u p a)
      = { st with media := insert_media_item st.media u p a } := rfl

theorem drainStep_skip (st : St) (o : Outcome)
    (h : ∀ u p a, o ≠ Outcome.downloaded u p a) : drainStep st o = st := by
  cases o with
  | downloaded u p a => exact absurd rfl (h u p a)
  | alreadyPresent => rfl
  | statusFailed => rfl
  | excFailed => rfl

theorem select_append_of_some (m : List MediaRec) (x : MediaRec) (u : String)
    (r : MediaRec) (h : select_media_item m u = some r) :
    select_media_item (m ++ [x]) u = some r := by
  rw [select_media_item] at h ⊢
  rw [List.find?_append, h]
  rfl

theorem select_append_of_ne (m : List MediaRec) (u u' p : String)
    (a : Option String) (hne : u' ≠ u) (h : select_media_item m u = none) :
    select_media_item (m ++ [⟨u', p, a⟩]) u = none := by
  rw [select_media_item] at h ⊢
  rw [List.find?_append, h]
  simp [hne]

theorem download_nil (beh : Entry → Beh) (st : St) :
    download beh st [] = (st, [], 0) := rfl

theorem download_cons (beh : Entry → Beh) (st : St) (e : Entry) (l : List Entry) :
    download beh st (e :: l)
      = ((download beh (drainStep (download_media_item (beh e) st e).1
            (download_media_item (beh e) st e).2.1) l).1,
         (download_media_item (beh e) st e).2.1
           :: (download beh (drainStep (download_media_item (beh e) st e).1
                 (download_media_item (beh e) st e).2.1) l).2.1,
         (download_media_item (beh e) st e).2.2
           + (download beh (drainStep (download_media_item (beh e) st e).1
                 (download_media_item (beh e) st e).2.1) l).2.2) := rfl

theorem d_mono (beh : Entry → Beh) (q : String) :
    ∀ (l : List Entry) (st : St), fsHas st.fs q = true →
      fsHas (download beh st l).1.fs q = true
  | [], _, h => h
  | e :: rest, st, h => by
    rw [download_cons]
    exact d_mono beh q rest _ (by rw [drainStep_fs]; exact w_mono _ _ _ _ h)

theorem d_select_stable (beh : Entry → Beh) (u : String) (r : MediaRec) :
    ∀ (l : List Entry) (st : St), select_media_item st.media u = some r →
      select_media_item (download beh st l).1.media u = some r
  | [], _, h => h
  | e :: rest, st, h => by
    rw [download_cons]
    apply d_select_stable beh u r rest
    cases ho : (download_media_item (beh e) st e).2.1 with
    | downloaded u' p' a' =>
      rw [drainStep_downloaded, w_media]
      exact select_append_of_some st.media _ u r h
    | alreadyPresent =>
      have hd : drainStep (download_media_item (beh e) st e).1 Outcome.alreadyPresent
          = (download_media_item (beh e) st e).1 := rfl
      rw [hd, w_media]
      exact h
    | statusFailed =>
      have hd : drainStep (download_media_item (beh e) st e).1 Outcome.statusFailed
          = (download_media_item (beh e) st e).1 := rfl
      rw [hd, w_media]
      exact h
    | excFailed =>
      have hd : drainStep (download_media_item (beh e) st e).1 Outcome.excFailed
          = (download_media_item (beh e) st e).1 := rfl
      rw [hd, w_media]
      exact h

theorem d_all_guard (beh : Entry → Beh) :
    ∀ (l : List Entry) (st : St), (∀ e ∈ l, fsHas st.fs e.path = true) →
      download beh st l = (st, l.map (fun _ => Outcome.alreadyPresent), 0)
  | [], st, _ => rfl
  | e :: rest, st, h => by
    have hg := w_guard (beh e) st e (h e (List.mem_cons_self e rest))
    rw [download_cons, hg]
    have hdrain : drainStep st Outcome.alreadyPresent = st := rfl
    simp only [hdrain]
    rw [d_all_guard beh rest st (fun x hx => h x (List.mem_cons_of_mem _ hx))]
    rfl

theorem d_benign_paths (beh : Entry → Beh) :
    ∀ (l : List Entry) (st : St),
      (∀ e ∈ l, (beh e).fetch = FetchBeh.status 200 ∧ (beh e).writeRaises = false) →
      ∀ e ∈ l, fsHas (download beh st l).1.fs e.path = true
  | [], _, _, e, he => absurd he (List.not_mem_nil e)
  | e0 :: rest, st, hb, e, he => by
    rw [download_cons]
    rcases List.mem_cons.mp he with rfl | hmem
    · apply d_mono
      rw [drainStep_fs]
      by_cases hg : fsHas st.fs e.path = true
      · exact w_mono _ _ _ _ hg
      · have h0 : fsHas st.fs e.path = false := Bool.eq_false_iff.mpr hg
        obtain ⟨hf, hw⟩ := hb e (List.mem_cons_self _ _)
        rw [w_success (beh e) st e h0 hf hw]
        exact postFs_self _ _ _
    · exact d_benign_paths beh rest _
        (fun x hx => hb x (List.mem_cons_of_mem _ hx)) e hmem

theorem download_append (beh : Entry → Beh) :
    ∀ (l₁ l₂ : List Entry) (st : St),
      download beh st (l₁ ++ l₂)
        = ((download beh (download beh st l₁).1 l₂).1,
           (download beh st l₁).2.1 ++ (download beh (download beh st l₁).1 l₂).2.1,
           (download beh st l₁).2.2 + (download beh (download beh st l₁).1 l₂).2.2)
  | [], l₂, st => by simp [download_nil]
  | e :: rest, l₂, st => by
    rw [List.cons_append, download_cons, download_cons,
      download_append beh rest l₂ _]
    simp [Nat.add_assoc]

/-! ## Claim C9: records are written only after their file exists -/

theorem drain_inv_skip (b : Beh) (st : St) (e : Entry) (o : Outcome)
    (h : ∀ r ∈ st.media, fsHas st.fs r.path = true)
    (hskip : ∀ u p a, o ≠ Outcome.downloaded u p a) :
    ∀ r ∈ (drainStep (download_media_item b st e).1 o).media,
      fsHas (drainStep (download_media_item b st e).1 o).fs r.path = true := by
  intro r hr
  rw [drainStep_skip _ _ hskip] at hr ⊢
  rw [w_media] at hr
  exact w_mono _ _ _ _ (h r hr)

/-- Any number of worker-plus-drain steps preserves "every media record's
path holds a file". -/
theorem d_recfiles (beh : Entry → Beh) :
    ∀ (l : List Entry) (st : St),
      (∀ r ∈ st.media, fsHas st.fs r.path = true) →
      ∀ r ∈ (download beh st l).1.media,
        fsHas (download beh st l).1.fs r.path = true
  | [], _, h => h
  | e :: rest, st, h => by
    rw [download_cons]
    apply d_recfiles beh rest
    cases ho : (download_media_item (beh e) st e).2.1 with
    | downloaded u' p' a' =>
      intro r hr
      rw [drainStep_downloaded] at hr ⊢
      simp only [insert_media_item] at hr
      rcases List.mem_append.mp hr with hmem | hsing
      · rw [w_media] at hmem
        exact w_mono _ _ _ _ (h r hmem)
      · have hr2 : r = ⟨u', p', a'⟩ := by simpa using hsing
        obtain ⟨_, h2, _, _, h5⟩ := w_downloaded (beh e) st e u' p' a' ho
        subst hr2
        rw [h2]
        exact h5
    | alreadyPresent =>
      exact drain_inv_skip _ _ _ _ h (fun u p a hx => Outcome.noConfusion hx)
    | statusFailed =>
      exact drain_inv_skip _ _ _ _ h (fun u p a hx => Outcome.noConfusion hx)
    | excFailed =>
      exact drain_inv_skip _ _ _ _ h (fun u p a hx => Outcome.noConfusion hx)

/-- **C9**: in every reachable state of a run an index record exists only
if its file does: after any prefix of the batch (the state seen if the
process is killed there), every media record's path holds a file; and a
`downloaded` completion has its file on disk already in the worker's final
state, i.e. strictly before the draining loop performs the insert. -/
theorem c9_record_only_after_file (beh : Entry → Beh) (st : St) (l : List Entry)
    (hinv : ∀ r ∈ st.media, fsHas st.fs r.path = true) :
    (∀ r ∈ (download beh st l).1.media,
       fsHas (download beh st l).1.fs r.path = true) ∧
    (∀ (b : Beh) (stA : St) (e : Entry) (u p : String) (a : Option String),
       (download_media_item b stA e).2.1 = Outcome.downloaded u p a →
       fsHas (download_media_item b stA e).1.fs p = true) := by
  constructor
  · exact d_recfiles beh l st hinv
  · intro b stA e u p a h
    obtain ⟨_, hp, _, _, h5⟩ := w_downloaded b stA e u p a h
    rw [hp]
    exact h5

/-- Witness for C9: a concrete one-task run from an empty state leaves a
record whose file exists. -/
theorem c9_record_only_after_file_witness :
    fsHas
      (download
        (fun _ => Beh.mk (FetchBeh.status 200) false
          (MetaBeh.mk true true false true false false))
        (St.mk [] [] 0)
        [Entry.mk "u" none "http-x" "d/f" none (some "t")]).1.fs
      (MediaRec.mk "u" "d/f" none).path = true := by
  refine (c9_record_only_after_file
    (fun _ => Beh.mk (FetchBeh.status 200) false
      (MetaBeh.mk true true false true false false))
    (St.mk [] [] 0)
    [Entry.mk "u" none "http-x" "d/f" none (some "t")]
    (by decide)).1 (MediaRec.mk "u" "d/f" none) (by decide)

/-! ## Claim C1: already-present files are detected but never backfilled -/

/-- Counterexample to **C1** as stated: a task whose file `"d/f"` exists on
disk but has no index record; after the worker and the pool-draining loop
run, `lookupItem` (`select_media_item`) is still absent — no record is
backfilled, because the worker returns the falsy `False` and the draining
loop inserts only truthy completions. -/
theorem c1_counterexample :
    select_media_item
      (download
        (fun _ => Beh.mk (FetchBeh.status 200) false
          (MetaBeh.mk true true false true false false))
        (St.mk [("d/f", 0)] [] 0)
        [Entry.mk "u" none "http-x" "d/f" none (some "t")]).1.media
      "u" = none := by decide

/-- **C1 (amended)**: for a task whose target file already exists on disk
but has no index record, step 1 of the worker detects the file and returns
`AlreadyPresent` (with no network fetch and no state change), but no index
record is backfilled: after the run `lookupItem(itemId)` is still absent. -/
theorem c1_no_backfill (beh : Entry → Beh) (st : St) (e : Entry)
    (hfile : fsHas st.fs e.path = true)
    (hno : select_media_item st.media e.uuid = none) :
    download_media_item (beh e) st e = (st, Outcome.alreadyPresent, 0) ∧
    download beh st [e] = (st, [Outcome.alreadyPresent], 0) ∧
    select_media_item (download beh st [e]).1.media e.uuid = none := by
  have hg := w_guard (beh e) st e hfile
  have hd : download beh st [e] = (st, [Outcome.alreadyPresent], 0) := by
    have hall := d_all_guard beh [e] st
      (by intro x hx; rw [List.mem_singleton.mp hx]; exact hfile)
    simpa using hall
  exact ⟨hg, hd, by rw [hd]; exact hno⟩

/-- Witness for the amended C1 at a concrete input. -/
theorem c1_no_backfill_witness :
    download_media_item
      ((fun _ => Beh.mk FetchBeh.raises true
          (MetaBeh.mk false false true false true true))
        (Entry.mk "u" none "http-x" "d/f" none none))
      (St.mk [("d/f", 0)] [] 0) (Entry.mk "u" none "http-x" "d/f" none none)
      = (St.mk [("d/f", 0)] [] 0, Outcome.alreadyPresent, 0) ∧
    download
      (fun _ => Beh.mk FetchBeh.raises true
        (MetaBeh.mk false false true false true true))
      (St.mk [("d/f", 0)] [] 0) [Entry.mk "u" none "http-x" "d/f" none none]
      = (St.mk [("d/f", 0)] [] 0, [Outcome.alreadyPresent], 0) ∧
    select_media_item
      (download
        (fun _ => Beh.mk FetchBeh.raises true
          (MetaBeh.mk false false true false true true))
        (St.mk [("d/f", 0)] [] 0)
        [Entry.mk "u" none "http-x" "d/f" none none]).1.media
      (Entry.mk "u" none "http-x" "d/f" none none).uuid = none :=
  c1_no_backfill
    (fun _ => Beh.mk FetchBeh.raises true
      (MetaBeh.mk false false true false true true))
    (St.mk [("d/f", 0)] [] 0) (Entry.mk "u" none "http-x" "d/f" none none)
    (by decide) (by decide)

/-! ## Claim C3: exception handling and failure isolation -/

/-- Counterexample to **C3** as stated: an exception raised during the
metadata step (`setRaises`, with the sidecar write raising too) is caught,
but the task is NOT converted to a `Failed` outcome — the worker still
returns the success tuple, i.e. `Downloaded`. -/
theorem c3_counterexample :
    (download_media_item
      (Beh.mk (FetchBeh.status 200) false (MetaBeh.mk true true true true true true))
      (St.mk [] [] 0) (Entry.mk "u" none "http-x" "d/f" (some "desc") (some "t"))).2.1
      = Outcome.downloaded "u" "d/f" none ∧
    (download_media_item
      (Beh.mk (FetchBeh.status 200) false (MetaBeh.mk true true true true true true))
      (St.mk [] [] 0) (Entry.mk "u" none "http-x" "d/f" (some "desc") (some "t"))).2.1
      ≠ Outcome.excFailed := by
  constructor
  · decide
  · decide

/-- **C3 (amended)**: an exception during the fetch or the streaming write
is caught and converted to a `Failed` outcome (never propagated), while an
exception during the metadata step is caught with the task still returning
`Downloaded`; a non-downloaded completion inserts no index record; and a
task whose fetch raises leaves the final state of the whole batch exactly
as if the task were absent, with every other task's outcome unchanged (one
extra fetch and the extra `Failed` completion are the only differences). -/
theorem c3_exceptions_isolated :
    (∀ (b : Beh) (st : St) (e : Entry),
       fsHas st.fs e.path = false → b.fetch = FetchBeh.raises →
       download_media_item b st e = (st, Outcome.excFailed, 1)) ∧
    (∀ (b : Beh) (st : St) (e : Entry),
       fsHas st.fs e.path = false → b.fetch = FetchBeh.status 200 →
       b.writeRaises = true →
       download_media_item b st e
         = ({ st with fs := fsCreate st.fs e.path }, Outcome.excFailed, 1)) ∧
    (∀ (b : Beh) (st : St) (e : Entry),
       fsHas st.fs e.path = false → b.fetch = FetchBeh.status 200 →
       b.writeRaises = false →
       (download_media_item b st e).2.1
         = Outcome.downloaded e.uuid e.path e.album_uuid) ∧
    (∀ (st : St) (o : Outcome), (∀ u p a, o ≠ Outcome.downloaded u p a) →
       drainStep st o = st) ∧
    (∀ (beh : Entry → Beh) (st : St) (l₁ l₂ : List Entry) (e : Entry),
       (beh e).fetch = FetchBeh.raises →
       fsHas (download beh st l₁).1.fs e.path = false →
       download beh st (l₁ ++ e :: l₂)
         = ((download beh st (l₁ ++ l₂)).1,
            (download beh st l₁).2.1
              ++ Outcome.excFailed
                :: (download beh (download beh st l₁).1 l₂).2.1,
            (download beh st (l₁ ++ l₂)).2.2 + 1)) := by
  refine ⟨w_raises, w_writeRaises, ?_, drainStep_skip, ?_⟩
  · intro b st e h hb hw
    rw [w_success b st e h hb hw]
  · intro beh st l₁ l₂ e hbe hfs
    have hw := w_raises (beh e) (download beh st l₁).1 e hfs hbe
    have hstep : download beh (download beh st l₁).1 (e :: l₂)
        = ((download beh (download beh st l₁).1 l₂).1,
           Outcome.excFailed :: (download beh (download beh st l₁).1 l₂).2.1,
           1 + (download beh (download beh st l₁).1 l₂).2.2) := by
      rw [download_cons, hw]
      rfl
    rw [download_append beh l₁ (e :: l₂) st, hstep,
      download_append beh l₁ l₂ st]
    simp only [Prod.mk.injEq]
    refine ⟨trivial, trivial, ?_⟩
    omega

/-- Witness for the amended C3: a concrete task whose metadata step raises
still comes back `Downloaded`, and a concrete two-task batch around a
fetch-raising task ends in the same state as the batch without it. -/
theorem c3_exceptions_isolated_witness :
    (download_media_item
      (Beh.mk (FetchBeh.status 200) false (MetaBeh.mk true true true true true true))
      (St.mk [] [] 0)
      (Entry.mk "u" none "http-x" "d/f" (some "desc") (some "t"))).2.1
      = Outcome.downloaded "u" "d/f" none ∧
    download
      (fun e => if e.uuid == "bad" then
          Beh.mk FetchBeh.raises false (MetaBeh.mk true true false true false false)
        else
          Beh.mk (FetchBeh.status 200) false (MetaBeh.mk true true false true false false))
      (St.mk [] [] 0)
      ([Entry.mk "a" none "http-a" "d/a" none none]
        ++ Entry.mk "bad" none "http-b" "d/b" none none
          :: [Entry.mk "c" none "http-c" "d/c" none none])
      = ((download
            (fun e => if e.uuid == "bad" then
                Beh.mk FetchBeh.raises false (MetaBeh.mk true true false true false false)
              else
                Beh.mk (FetchBeh.status 200) false (MetaBeh.mk true true false true false false))
            (St.mk [] [] 0)
            ([Entry.mk "a" none "http-a" "d/a" none none]
              ++ [Entry.mk "c" none "http-c" "d/c" none none])).1,
         (download
            (fun e => if e.uuid == "bad" then
                Beh.mk FetchBeh.raises false (MetaBeh.mk true true false true false false)
              else
                Beh.mk (FetchBeh.status 200) false (MetaBeh.mk true true false true false false))
            (St.mk [] [] 0)
            [Entry.mk "a" none "http-a" "d/a" none none]).2.1
           ++ Outcome.excFailed
             :: (download
                  (fun e => if e.uuid == "bad" then
                      Beh.mk FetchBeh.raises false (MetaBeh.mk true true false true false false)
                    else
                      Beh.mk (FetchBeh.status 200) false (MetaBeh.mk true true false true false false))
                  (download
                    (fun e => if e.uuid == "bad" then
                        Beh.mk FetchBeh.raises false (MetaBeh.mk true true false true false false)
                      else
                        Beh.mk (FetchBeh.status 200) false (MetaBeh.mk true true false true false false))
                    (St.mk [] [] 0)
                    [Entry.mk "a" none "http-a" "d/a" none none]).1
                  [Entry.mk "c" none "http-c" "d/c" none none]).2.1,
         (download
            (fun e => if e.uuid == "bad" then
                Beh.mk FetchBeh.raises false (MetaBeh.mk true true false true false false)
              else
                Beh.mk (FetchBeh.status 200) false (MetaBeh.mk true true false true false false))
            (St.mk [] [] 0)
            ([Entry.mk "a" none "http-a" "d/a" none none]
              ++ [Entry.mk "c" none "http-c" "d/c" none none])).2.2 + 1) := by
  constructor
  · exact c3_exceptions_isolated.2.2.1
      (Beh.mk (FetchBeh.status 200) false (MetaBeh.mk true true true true true true))
      (St.mk [] [] 0)
      (Entry.mk "u" none "http-x" "d/f" (some "desc") (some "t"))
      (by decide) rfl rfl
  · exact c3_exceptions_isolated.2.2.2.2
      (fun e => if e.uuid == "bad" then
          Beh.mk FetchBeh.raises false (MetaBeh.mk true true false true false false)
        else
          Beh.mk (FetchBeh.status 200) false (MetaBeh.mk true true false true false false))
      (St.mk [] [] 0)
      [Entry.mk "a" none "http-a" "d/a" none none]
      [Entry.mk "c" none "http-c" "d/c" none none]
      (Entry.mk "bad" none "http-b" "d/b" none none)
      (by decide) (by decide)

/-! ## Claim C7: metadata embedding — exactly one of in-place or sidecar -/

/-- **C7**: a successful metadata embedding results in exactly one of an
in-place write into the file or a sidecar file `path ++ ".xmp"` (the two
results are distinct); when every embedding stage fails, the filesystem is
left untouched and the worker still returns `Downloaded`. -/
theorem c7_metadata_embedding :
    (∀ (m : MetaBeh) (fs : FS) (path : String), metaAllFail m = false →
       embedMetadata m fs path = (fsBump fs path, MetaResult.inPlace) ∨
       embedMetadata m fs path
         = (fsCreate fs (path ++ ".xmp"), MetaResult.sidecar)) ∧
    (∀ (fs : FS) (path : String),
       (fsBump fs path, MetaResult.inPlace)
         ≠ (fsCreate fs (path ++ ".xmp"), MetaResult.sidecar)) ∧
    (∀ (m : MetaBeh) (fs : FS) (path : String), metaAllFail m = true →
       embedMetadata m fs path = (fs, MetaResult.nothingDone)) ∧
    (∀ (b : Beh) (st : St) (e : Entry),
       metaAllFail b.m = true → fsHas st.fs e.path = false →
       b.fetch = FetchBeh.status 200 → b.writeRaises = false →
       metaWanted e = true →
       download_media_item b st e
         = ({ st with fs := fsCreate st.fs e.path,
                      downloads := st.downloads + 1 },
            Outcome.downloaded e.uuid e.path e.album_uuid, 1)) := by
  refine ⟨?_, ?_, ?_, ?_⟩
  · intro m fs path h
    rw [metaAllFail] at h
    rw [embedMetadata]
    have hset : m.setRaises = false := by
      cases hs : m.setRaises
      · rfl
      · rw [hs] at h; simp at h
    rw [hset]
    by_cases hip : inPlaceOk m = true
    · left
      simp [hip]
    · right
      have hip0 : inPlaceOk m = false := Bool.eq_false_iff.mpr hip
      have hside : m.sidecarRaises = false := by
        rw [hset, hip0] at h
        simpa using h
      simp [hip0, hside]
  · intro fs path
    simp
  · intro m fs path h
    rw [metaAllFail] at h
    rw [embedMetadata]
    cases hs : m.setRaises
    · rw [hs] at h
      simp only [Bool.false_or] at h
      have hip0 : inPlaceOk m = false := by
        cases hip : inPlaceOk m
        · rfl
        · rw [hip] at h; simp at h
      have hside : m.sidecarRaises = true := by
        rw [hip0] at h
        simpa using h
      simp [hip0, hside]
    · simp
  · intro b st e hall hg hf hw hm
    rw [w_success b st e hg hf hw]
    have hpost : postFs b e st.fs = fsCreate st.fs e.path := by
      rw [postFs, if_pos hm]
      have h3 : embedMetadata b.m (fsCreate st.fs e.path) e.path
          = (fsCreate st.fs e.path, MetaResult.nothingDone) := by
        rw [metaAllFail] at hall
        rw [embedMetadata]
        cases hs : b.m.setRaises
        · rw [hs] at hall
          simp only [Bool.false_or] at hall
          have hip0 : inPlaceOk b.m = false := by
            cases hip : inPlaceOk b.m
            · rfl
            · rw [hip] at hall; simp at hall
          have hside : b.m.sidecarRaises = true := by
            rw [hip0] at hall
            simpa using hall
          simp [hip0, hside]
        · simp
      rw [h3]
    rw [hpost]

/-- Witness for C7 at concrete inputs: an embedder that can write in place
does exactly the in-place update, and a worker whose metadata stages all
fail still returns `Downloaded` with only the media file created. -/
theorem c7_metadata_embedding_witness :
    (embedMetadata (MetaBeh.mk true true false true false false) [("d/f", 0)] "d/f"
        = (fsBump [("d/f", 0)] "d/f", MetaResult.inPlace) ∨
     embedMetadata (MetaBeh.mk true true false true false false) [("d/f", 0)] "d/f"
        = (fsCreate [("d/f", 0)] ("d/f" ++ ".xmp"), MetaResult.sidecar)) ∧
    download_media_item
      (Beh.mk (FetchBeh.status 200) false (MetaBeh.mk true true true true true true))
      (St.mk [] [] 0) (Entry.mk "u" none "http-x" "d/f" (some "desc") (some "t"))
      = ({ St.mk [] [] 0 with
            fs := fsCreate (St.mk [] [] 0).fs (Entry.mk "u" none "http-x" "d/f" (some "desc") (some "t")).path,
            downloads := (St.mk [] [] 0).downloads + 1 },
         Outcome.downloaded "u" "d/f" none, 1) := by
  constructor
  · exact c7_metadata_embedding.1
      (MetaBeh.mk true true false true false false) [("d/f", 0)] "d/f" (by decide)
  · exact c7_metadata_embedding.2.2.2
      (Beh.mk (FetchBeh.status 200) false (MetaBeh.mk true true true true true true))
      (St.mk [] [] 0) (Entry.mk "u" none "http-x" "d/f" (some "desc") (some "t"))
      (by decide) (by decide) rfl rfl (by decide)

/-! ## Claim C8: item processing -/

/-- Counterexample to **C8** as stated: an unrecorded item missing its
`filename` key makes `process_media_items` raise a `KeyError`
(`Except.error`), rather than being dropped silently. -/
theorem c8_counterexample :
    process_media_items (fun s => s) []
      [RawItem.mk (some "i") none (some "image/jpeg") (some "u") none (some "t")]
      "d" none = Except.error () := rfl

/-- For a batch of well-formed items, the processing loop equals a pure
`filterMap` of the per-item semantics. -/
theorem process_eq_filterMap (sanitize : String → String) (index : List MediaRec)
    (dir : String) (album : Option String) :
    ∀ (items : List RawItem), (∀ item ∈ items, WFItem index item) →
      process_media_items sanitize index items dir album
        = Except.ok (items.filterMap (taskOf sanitize index dir album))
  | [], _ => rfl
  | item :: rest, h => by
    obtain ⟨i, m, hid, hm, hfn, hmime⟩ := h item (List.mem_cons_self _ _)
    have ih := process_eq_filterMap sanitize index dir album rest
      (fun x hx => h x (List.mem_cons_of_mem _ hx))
    rw [process_media_items, hid, List.filterMap_cons, hm, taskOf, hid]
    simp only [getKey, hm]
    cases hsel : select_media_item index i with
    | none =>
      obtain ⟨fn, hfn2⟩ := Option.isSome_iff_exists.mp (hfn hsel)
      rw [hfn2]
      by_cases himg : pyIn "image" m = true
      · obtain ⟨hbu, hct⟩ := hmime (by rw [himg]; simp)
        obtain ⟨b, hb2⟩ := Option.isSome_iff_exists.mp hbu
        obtain ⟨ct, hct2⟩ := Option.isSome_iff_exists.mp hct
        rw [hb2, hct2]
        dsimp only
        rw [if_pos himg, if_pos himg, ih]
        rfl
      · have himg0 : pyIn "image" m = false := Bool.eq_false_iff.mpr himg
        by_cases hvid : pyIn "video" m = true
        · obtain ⟨hbu, hct⟩ := hmime (by rw [hvid]; simp)
          obtain ⟨b, hb2⟩ := Option.isSome_iff_exists.mp hbu
          obtain ⟨ct, hct2⟩ := Option.isSome_iff_exists.mp hct
          rw [hb2, hct2]
          dsimp only
          rw [if_neg himg, if_neg himg, if_pos hvid, if_pos hvid, ih]
          rfl
        · have hvid0 : pyIn "video" m = false := Bool.eq_false_iff.mpr hvid
          dsimp only
          rw [if_neg himg, if_neg himg, if_neg hvid, if_neg hvid, ih]
    | some r =>
      by_cases himg : pyIn "image" m = true
      · obtain ⟨hbu, hct⟩ := hmime (by rw [himg]; simp)
        obtain ⟨b, hb2⟩ := Option.isSome_iff_exists.mp hbu
        obtain ⟨ct, hct2⟩ := Option.isSome_iff_exists.mp hct
        rw [hb2, hct2]
        dsimp only
        rw [if_pos himg, if_pos himg, ih]
        rfl
      · have himg0 : pyIn "image" m = false := Bool.eq_false_iff.mpr himg
        by_cases hvid : pyIn "video" m = true
        · obtain ⟨hbu, hct⟩ := hmime (by rw [hvid]; simp)
          obtain ⟨b, hb2⟩ := Option.isSome_iff_exists.mp hbu
          obtain ⟨ct, hct2⟩ := Option.isSome_iff_exists.mp hct
          rw [hb2, hct2]
          dsimp only
          rw [if_neg himg, if_neg himg, if_pos hvid, if_pos hvid, ih]
          rfl
        · have hvid0 : pyIn "video" m = false := Bool.eq_false_iff.mpr hvid
          dsimp only
          rw [if_neg himg, if_neg himg, if_neg hvid, if_neg hvid, ih]

/-- **C8 (amended)**: `process_media_items` does drop items whose MIME type
is neither image nor video, and on a batch of well-formed items it never
raises, producing exactly the image/video tasks (the loop equals a pure
`filterMap` whose per-item function returns `none` on non-image/video MIME
types); but an item missing a required key raises a `KeyError` that aborts
the whole call instead of being dropped silently (see the counterexample). -/
theorem c8_processing_drops (sanitize : String → String) (index : List MediaRec)
    (dir : String) (album : Option String) (items : List RawItem)
    (h : ∀ item ∈ items, WFItem index item) :
    process_media_items sanitize index items dir album
      = Except.ok (items.filterMap (taskOf sanitize index dir album)) ∧
    (∀ (item : RawItem) (m : String), item.mimeType = some m →
       pyIn "image" m = false → pyIn "video" m = false →
       taskOf sanitize index dir album item = none) := by
  refine ⟨process_eq_filterMap sanitize index dir album items h, ?_⟩
  intro item m hm himg hvid
  rw [taskOf]
  cases hid : item.id with
  | none => rfl
  | some i => simp only [hm, himg, hvid, Bool.false_eq_true, if_false]

/-- Witness for the amended C8: a concrete two-item batch (one image, one
text file) processes without error into exactly the image task. -/
theorem c8_processing_drops_witness :
    process_media_items (fun s => s) []
      [RawItem.mk (some "i") (some "f.jpg") (some "image/jpeg") (some "u") none (some "t"),
       RawItem.mk (some "j") (some "g.txt") (some "text/plain") (some "v") none (some "s")]
      "d" none
      = Except.ok
          ([RawItem.mk (some "i") (some "f.jpg") (some "image/jpeg") (some "u") none (some "t"),
            RawItem.mk (some "j") (some "g.txt") (some "text/plain") (some "v") none (some "s")].filterMap
            (taskOf (fun s => s) [] "d" none)) := by
  refine (c8_processing_drops (fun s => s) [] "d" none _ ?_).1
  intro item hitem
  simp only [List.mem_cons, List.not_mem_nil, or_false] at hitem
  rcases hitem with rfl | rfl
  · exact ⟨"i", "image/jpeg", rfl, rfl, fun _ => rfl, fun _ => ⟨rfl, rfl⟩⟩
  · exact ⟨"j", "text/plain", rfl, rfl, fun _ => rfl,
      fun hx => absurd hx (by decide)⟩

/-! ## Facts about `taskOf` and well-formedness extracted from a
successful `process_media_items` run -/

theorem taskOf_some_facts (sanitize : String → String) (index : List MediaRec)
    (dir : String) (album : Option String) (item : RawItem) (e : Entry)
    (h : taskOf sanitize index dir album item = some e) :
    item.id = some e.uuid ∧
    (∀ r, select_media_item index e.uuid = some r → e.path = r.path) := by
  rw [taskOf] at h
  cases hid : item.id with
  | none => rw [hid] at h; exact absurd h (by simp)
  | some i =>
    rw [hid] at h
    dsimp only at h
    cases hm : item.mimeType with
    | none => rw [hm] at h; exact absurd h (by simp)
    | some m =>
      rw [hm] at h
      dsimp only at h
      by_cases himg : pyIn "image" m = true
      · rw [if_pos himg] at h
        have he := (Option.some.injEq _ _).mp h
        subst he
        refine ⟨rfl, ?_⟩
        intro r hr
        dsimp only at hr ⊢
        rw [hr]
      · rw [if_neg himg] at h
        by_cases hvid : pyIn "video" m = true
        · rw [if_pos hvid] at h
          have he := (Option.some.injEq _ _).mp h
          subst he
          refine ⟨rfl, ?_⟩
          intro r hr
          dsimp only at hr ⊢
          rw [hr]
        · rw [if_neg hvid] at h
          exact absurd h (by simp)

/-- If two indices agree on being unrecorded at the item's id, the item
contributes the same task over both. -/
theorem taskOf_select_none_eq (sanitize : String → String)
    (index index2 : List MediaRec) (dir : String) (album : Option String)
    (item : RawItem) (i : String) (hid : item.id = some i)
    (h1 : select_media_item index i = none)
    (h2 : select_media_item index2 i = none) :
    taskOf sanitize index dir album item
      = taskOf sanitize index2 dir album item := by
  rw [taskOf, taskOf, hid]
  dsimp only
  rw [h1, h2]

theorem filterMap_taskOf_uuid_sublist (sanitize : String → String)
    (index : List MediaRec) (dir : String) (album : Option String) :
    ∀ (items : List RawItem),
      ((items.filterMap (taskOf sanitize index dir album)).map Entry.uuid).Sublist
        (items.filterMap RawItem.id)
  | [] => List.Sublist.refl []
  | item :: rest => by
    rw [List.filterMap_cons, List.filterMap_cons]
    cases ht : taskOf sanitize index dir album item with
    | none =>
      cases hid : item.id with
      | none => exact filterMap_taskOf_uuid_sublist sanitize index dir album rest
      | some i =>
        exact List.Sublist.cons i
          (filterMap_taskOf_uuid_sublist sanitize index dir album rest)
    | some e =>
      obtain ⟨hid, _⟩ := taskOf_some_facts sanitize index dir album item e ht
      rw [hid, List.map_cons]
      exact List.Sublist.cons₂ e.uuid
        (filterMap_taskOf_uuid_sublist sanitize index dir album rest)

/-- A successful `process_media_items` run certifies that every processed
item is well formed with respect to any index that still records at least
everything the processing index recorded. -/
theorem process_ok_wf (sanitize : String → String) (index index2 : List MediaRec)
    (dir : String) (album : Option String)
    (hstab : ∀ (u : String) (r : MediaRec), select_media_item index u = some r →
      select_media_item index2 u = some r) :
    ∀ (items : List RawItem) (tasks : List Entry),
      process_media_items sanitize index items dir album = Except.ok tasks →
      ∀ item ∈ items, WFItem index2 item
  | [], _, _, item, hmem => absurd hmem (List.not_mem_nil _)
  | itm :: rest, tasks, hp, item, hmem => by
    rw [process_media_items] at hp
    cases hid : itm.id with
    | none => rw [hid] at hp; exact absurd hp (by simp [getKey])
    | some i =>
    rw [hid] at hp
    dsimp only [getKey] at hp
    have hfin : (∃ tail, process_media_items sanitize index rest dir album
        = Except.ok tail) ∧ WFItem index2 itm := by
      cases hsel : select_media_item index i with
      | none =>
        rw [hsel] at hp
        cases hfn : itm.filename with
        | none => rw [hfn] at hp; exact absurd hp (by simp [getKey])
        | some fn =>
        rw [hfn] at hp
        dsimp only [getKey] at hp
        cases hm : itm.mimeType with
        | none => rw [hm] at hp; exact absurd hp (by simp [getKey])
        | some m =>
        rw [hm] at hp
        dsimp only [getKey] at hp
        have hwf0 : ∀ hmime : (pyIn "image" m || pyIn "video" m) = true →
            itm.baseUrl.isSome = true ∧ itm.creationTime.isSome = true,
            WFItem index2 itm :=
          fun hmime => ⟨i, m, hid, hm, fun _ => by rw [hfn]; rfl, hmime⟩
        by_cases himg : pyIn "image" m = true
        · rw [if_pos himg] at hp
          cases hb : itm.baseUrl with
          | none => rw [hb] at hp; exact absurd hp (by simp [getKey])
          | some b =>
          rw [hb] at hp
          dsimp only [getKey] at hp
          cases hct : itm.creationTime with
          | none => rw [hct] at hp; exact absurd hp (by simp [getKey])
          | some ct =>
          rw [hct] at hp
          dsimp only [getKey] at hp
          cases hrest : process_media_items sanitize index rest dir album with
          | error er => rw [hrest] at hp; exact absurd hp (by simp)
          | ok tail =>
            exact ⟨⟨tail, rfl⟩,
              hwf0 (fun _ => ⟨by rw [hb]; rfl, by rw [hct]; rfl⟩)⟩
        · rw [if_neg himg] at hp
          by_cases hvid : pyIn "video" m = true
          · rw [if_pos hvid] at hp
            cases hb : itm.baseUrl with
            | none => rw [hb] at hp; exact absurd hp (by simp [getKey])
            | some b =>
            rw [hb] at hp
            dsimp only [getKey] at hp
            cases hct : itm.creationTime with
            | none => rw [hct] at hp; exact absurd hp (by simp [getKey])
            | some ct =>
            rw [hct] at hp
            dsimp only [getKey] at hp
            cases hrest : process_media_items sanitize index rest dir album with
            | error er => rw [hrest] at hp; exact absurd hp (by simp)
            | ok tail =>
              exact ⟨⟨tail, rfl⟩,
                hwf0 (fun _ => ⟨by rw [hb]; rfl, by rw [hct]; rfl⟩)⟩
          · rw [if_neg hvid] at hp
            dsimp only at hp
            cases hrest : process_media_items sanitize index rest dir album with
            | error er => rw [hrest] at hp; exact absurd hp (by simp)
            | ok tail =>
              refine ⟨⟨tail, rfl⟩, i, m, hid, hm, fun _ => by rw [hfn]; rfl,
                fun hx => ?_⟩
              rw [Bool.eq_false_iff.mpr himg] at hx
              rw [Bool.eq_false_iff.mpr hvid] at hx
              exact absurd hx (by simp)
      | some r =>
        rw [hsel] at hp
        dsimp only at hp
        have hfn2 : select_media_item index2 i = none → itm.filename.isSome = true :=
          fun hsel2 => absurd (hstab i r hsel) (by rw [hsel2]; simp)
        cases hm : itm.mimeType with
        | none => rw [hm] at hp; exact absurd hp (by simp [getKey])
        | some m =>
        rw [hm] at hp
        dsimp only [getKey] at hp
        by_cases himg : pyIn "image" m = true
        · rw [if_pos himg] at hp
          cases hb : itm.baseUrl with
          | none => rw [hb] at hp; exact absurd hp (by simp [getKey])
          | some b =>
          rw [hb] at hp
          dsimp only [getKey] at hp
          cases hct : itm.creationTime with
          | none => rw [hct] at hp; exact absurd hp (by simp [getKey])
          | some ct =>
          rw [hct] at hp
          dsimp only [getKey] at hp
          cases hrest : process_media_items sanitize index rest dir album with
          | error er => rw [hrest] at hp; exact absurd hp (by simp)
          | ok tail =>
            exact ⟨⟨tail, rfl⟩, i, m, hid, hm, hfn2,
              fun _ => ⟨by rw [hb]; rfl, by rw [hct]; rfl⟩⟩
        · rw [if_neg himg] at hp
          by_cases hvid : pyIn "video" m = true
          · rw [if_pos hvid] at hp
            cases hb : itm.baseUrl with
            | none => rw [hb] at hp; exact absurd hp (by simp [getKey])
            | some b =>
            rw [hb] at hp
            dsimp only [getKey] at hp
            cases hct : itm.creationTime with
            | none => rw [hct] at hp; exact absurd hp (by simp [getKey])
            | some ct =>
            rw [hct] at hp
            dsimp only [getKey] at hp
            cases hrest : process_media_items sanitize index rest dir album with
            | error er => rw [hrest] at hp; exact absurd hp (by simp)
            | ok tail =>
              exact ⟨⟨tail, rfl⟩, i, m, hid, hm, hfn2,
                fun _ => ⟨by rw [hb]; rfl, by rw [hct]; rfl⟩⟩
          · rw [if_neg hvid] at hp
            dsimp only at hp
            cases hrest : process_media_items sanitize index rest dir album with
            | error er => rw [hrest] at hp; exact absurd hp (by simp)
            | ok tail =>
              refine ⟨⟨tail, rfl⟩, i, m, hid, hm, hfn2, fun hx => ?_⟩
              rw [Bool.eq_false_iff.mpr himg] at hx
              rw [Bool.eq_false_iff.mpr hvid] at hx
              exact absurd hx (by simp)
    obtain ⟨⟨tail, hrest⟩, hwfhead⟩ := hfin
    rcases List.mem_cons.mp hmem with rfl | hmem2
    · exact hwfhead
    · exact process_ok_wf sanitize index index2 dir album hstab rest tail
        hrest item hmem2

/-! ## Claim C2: index invariants -/

theorem mem_uuid_select (m : List MediaRec) (u : String)
    (h : u ∈ m.map MediaRec.uuid) :
    ∃ r, select_media_item m u = some r ∧ r ∈ m := by
  obtain ⟨r, hr, hru⟩ := List.mem_map.mp h
  have hsome : (m.find? (fun x => x.uuid == u)).isSome := by
    rw [List.find?_isSome]
    exact ⟨r, hr, by simp [hru]⟩
  obtain ⟨r2, hr2⟩ := Option.isSome_iff_exists.mp hsome
  exact ⟨r2, hr2, List.mem_of_find?_eq_some hr2⟩

/-- One worker-plus-drain step preserves the pipeline invariant, adds only
a record certified by a `downloaded` completion of this very task, and
leaves lookups of every other uuid unchanged. -/
theorem step_pipeinv (b : Beh) (st : St) (e : Entry)
    (hinv : PipeInv st)
    (hme : ∀ r, select_media_item st.media e.uuid = some r → e.path = r.path) :
    PipeInv (drainStep (download_media_item b st e).1
      (download_media_item b st e).2.1) ∧
    (∀ r ∈ (drainStep (download_media_item b st e).1
         (download_media_item b st e).2.1).media,
       r ∈ st.media ∨
       (download_media_item b st e).2.1
         = Outcome.downloaded r.uuid r.path r.album_uuid) ∧
    (∀ u, u ≠ e.uuid → ∀ r,
       select_media_item (drainStep (download_media_item b st e).1
         (download_media_item b st e).2.1).media u = some r →
       select_media_item st.media u = some r) := by
  rcases w_cases b st e with ⟨hg, heq⟩ |
      ⟨hg, ⟨hf, heq⟩ | ⟨c, hf, hc, heq⟩ | ⟨hf, hwr, heq⟩ | ⟨hf, hwr, heq⟩⟩
  · rw [heq]
    exact ⟨hinv, fun r hr => Or.inl hr, fun u _ r h => h⟩
  · rw [heq]
    exact ⟨hinv, fun r hr => Or.inl hr, fun u _ r h => h⟩
  · rw [heq]
    exact ⟨hinv, fun r hr => Or.inl hr, fun u _ r h => h⟩
  · rw [heq]
    refine ⟨⟨hinv.1, ?_⟩, fun r hr => Or.inl hr, fun u _ r h => h⟩
    intro r hr
    simp only [drainStep] at hr ⊢
    rw [fsHas_create]
    simp [hinv.2 r hr]
  · rw [heq]
    have hnotmem : e.uuid ∉ st.media.map MediaRec.uuid := by
      intro hmem
      obtain ⟨r, hsel, hrm⟩ := mem_uuid_select st.media e.uuid hmem
      have hp := hme r hsel
      have hfile := hinv.2 r hrm
      rw [← hp] at hfile
      rw [hfile] at hg
      exact Bool.noConfusion hg
    simp only [drainStep, insert_media_item]
    refine ⟨⟨?_, ?_⟩, ?_, ?_⟩
    · rw [List.map_append, List.map_singleton]
      refine List.Nodup.append hinv.1 (List.nodup_singleton _) ?_
      intro u hu hu2
      rw [List.mem_singleton.mp hu2] at hu
      exact hnotmem hu
    · intro r hr
      rcases List.mem_append.mp hr with hmem | hsing
      · exact postFs_mono b e st.fs r.path (hinv.2 r hmem)
      · rw [List.mem_singleton.mp hsing]
        exact postFs_self b e st.fs
    · intro r hr
      rcases List.mem_append.mp hr with hmem | hsing
      · exact Or.inl hmem
      · rw [List.mem_singleton.mp hsing]
        exact Or.inr rfl
    · intro u hu r hsel
      cases hsel0 : select_media_item st.media u with
      | some r0 =>
        have := select_append_of_some st.media ⟨e.uuid, e.path, e.album_uuid⟩ u r0 hsel0
        rw [this] at hsel
        have hr0 : r0 = r := (Option.some.injEq _ _).mp hsel
        subst hr0
        rfl
      | none =>
        have := select_append_of_ne st.media u e.uuid e.path e.album_uuid
          (fun hx => hu hx.symm) hsel0
        rw [this] at hsel
        exact Option.noConfusion hsel

/-- The whole batch preserves the pipeline invariant, and every new record
stems from a `downloaded` completion of one of the batch's tasks. -/
theorem d_pipeinv (beh : Entry → Beh) :
    ∀ (l : List Entry) (st : St),
      PipeInv st →
      (l.map Entry.uuid).Nodup →
      (∀ e ∈ l, ∀ r, select_media_item st.media e.uuid = some r →
        e.path = r.path) →
      PipeInv (download beh st l).1 ∧
      (∀ r ∈ (download beh st l).1.media,
         r ∈ st.media ∨
         ∃ e st1, e ∈ l ∧
           (download_media_item (beh e) st1 e).2.1
             = Outcome.downloaded r.uuid r.path r.album_uuid)
  | [], st, hinv, _, _ => ⟨hinv, fun r hr => Or.inl hr⟩
  | e :: rest, st, hinv, hnd, hmatch => by
    have hnd' := List.nodup_cons.mp (by rw [List.map_cons] at hnd; exact hnd)
    obtain ⟨hstep1, hstep2, hstep3⟩ :=
      step_pipeinv (beh e) st e hinv (hmatch e (List.mem_cons_self _ _))
    have hmatch' : ∀ e' ∈ rest, ∀ r,
        select_media_item (drainStep (download_media_item (beh e) st e).1
          (download_media_item (beh e) st e).2.1).media e'.uuid = some r →
        e'.path = r.path := by
      intro e' he' r hsel
      have hne : e'.uuid ≠ e.uuid := by
        intro hx
        exact hnd'.1 (hx ▸ List.mem_map_of_mem Entry.uuid he')
      exact hmatch e' (List.mem_cons_of_mem _ he') r (hstep3 e'.uuid hne r hsel)
    obtain ⟨ih1, ih2⟩ := d_pipeinv beh rest
      (drainStep (download_media_item (beh e) st e).1
        (download_media_item (beh e) st e).2.1)
      hstep1 hnd'.2 hmatch'
    rw [download_cons]
    refine ⟨ih1, ?_⟩
    intro r hr
    rcases ih2 r hr with hmem | ⟨e', st1, he', hdl⟩
    · rcases hstep2 r hmem with hmem0 | hdl0
      · exact Or.inl hmem0
      · exact Or.inr ⟨e, st, List.mem_cons_self _ _, hdl0⟩
    · exact Or.inr ⟨e', st1, List.mem_cons_of_mem _ he', hdl⟩

/-- **C2**: across any collection run (process items, download, record
completions) the media index keeps at most one record per itemId and every
record's path keeps holding a file (`PipeInv`); a record present afterwards
either predates the run or stems from a `downloaded` completion of one of
the run's tasks (so its presence certifies a successful download); and the
task built for an already-recorded item carries the record's stored
localPath as its target, never a recomputed one. -/
theorem c2_index_invariants (sanitize : String → String) (beh : Entry → Beh)
    (items : List RawItem) (dir : String) (album : Option String)
    (st st2 : St) (tasks : List Entry) (outs : List Outcome) (k : Nat)
    (hinv : PipeInv st)
    (hids : (items.filterMap RawItem.id).Nodup)
    (hp : process_media_items sanitize st.media items dir album = Except.ok tasks)
    (hd : download beh st tasks = (st2, outs, k)) :
    PipeInv st2 ∧
    (∀ r ∈ st2.media, r ∈ st.media ∨
       ∃ e st1, e ∈ tasks ∧
         (download_media_item (beh e) st1 e).2.1
           = Outcome.downloaded r.uuid r.path r.album_uuid) ∧
    (∀ e ∈ tasks, ∀ r, select_media_item st.media e.uuid = some r →
       e.path = r.path) := by
  have hwf := process_ok_wf sanitize st.media st.media dir album
    (fun _ _ h => h) items tasks hp
  have hfm := process_eq_filterMap sanitize st.media dir album items hwf
  have htasks : tasks = items.filterMap (taskOf sanitize st.media dir album) :=
    Except.ok.inj (hp.symm.trans hfm)
  subst htasks
  have hmatch : ∀ e ∈ items.filterMap (taskOf sanitize st.media dir album),
      ∀ r, select_media_item st.media e.uuid = some r → e.path = r.path := by
    intro e he r hsel
    obtain ⟨item, hitem, ht⟩ := List.mem_filterMap.mp he
    exact (taskOf_some_facts sanitize st.media dir album item e ht).2 r hsel
  have hnd : ((items.filterMap (taskOf sanitize st.media dir album)).map
      Entry.uuid).Nodup :=
    List.Nodup.sublist
      (filterMap_taskOf_uuid_sublist sanitize st.media dir album items) hids
  obtain ⟨h1, h2⟩ := d_pipeinv beh
    (items.filterMap (taskOf sanitize st.media dir album)) st hinv hnd hmatch
  rw [hd] at h1 h2
  exact ⟨h1, h2, hmatch⟩

/-- Witness for C2 at a concrete one-item run from an empty archive. -/
theorem c2_index_invariants_witness :
    PipeInv (St.mk [("d/f.jpg", 1)] [MediaRec.mk "i" "d/f.jpg" none] 1) :=
  (c2_index_invariants (fun s => s)
    (fun _ => Beh.mk (FetchBeh.status 200) false
      (MetaBeh.mk true true false true false false))
    [RawItem.mk (some "i") (some "f.jpg") (some "image/jpeg") (some "u") none (some "t")]
    "d" none (St.mk [] [] 0)
    (St.mk [("d/f.jpg", 1)] [MediaRec.mk "i" "d/f.jpg" none] 1)
    [Entry.mk "i" none "u=d" "d/f.jpg" none (some "t")]
    [Outcome.downloaded "i" "d/f.jpg" none] 1
    (by constructor <;> decide) (by decide) rfl rfl).1

/-! ## Claim C4: idempotence -/

/-- **C4**: the worker returns `AlreadyPresent` with zero network fetches
and no state change whenever the target file exists (the idempotence
guard); and after a successful benign run over a collection, running the
whole pipeline again over the unchanged collection succeeds with the same
final state — zero new files, zero new index records, zero fetches, every
task `AlreadyPresent` — whatever the network would have answered. -/
theorem c4_idempotent (sanitize : String → String) (beh : Entry → Beh)
    (items : List RawItem) (dir : String) (album : Option String)
    (st st1 : St) (outs : List Outcome) (k : Nat)
    (hinv : PipeInv st)
    (hids : (items.filterMap RawItem.id).Nodup)
    (hben : ∀ e, Benign (beh e))
    (h1 : runCollection sanitize beh items dir album st
      = Except.ok (st1, outs, k)) :
    (∀ (b : Beh) (st0 : St) (e : Entry), fsHas st0.fs e.path = true →
       download_media_item b st0 e = (st0, Outcome.alreadyPresent, 0)) ∧
    (∀ beh2 : Entry → Beh, ∃ tasks2 : List Entry,
       runCollection sanitize beh2 items dir album st1
         = Except.ok (st1, tasks2.map (fun _ => Outcome.alreadyPresent), 0)) := by
  refine ⟨w_guard, ?_⟩
  intro beh2
  rw [runCollection] at h1
  cases hp : process_media_items sanitize st.media items dir album with
  | error er =>
    rw [hp] at h1
    exact absurd h1 (by simp [Except.map])
  | ok tasks1 =>
    rw [hp] at h1
    have hd1 : download beh st tasks1 = (st1, outs, k) := by
      simpa [Except.map] using h1
    have hwf1 := process_ok_wf sanitize st.media st.media dir album
      (fun _ _ h => h) items tasks1 hp
    have hfm1 := process_eq_filterMap sanitize st.media dir album items hwf1
    have htasks1 : tasks1 = items.filterMap (taskOf sanitize st.media dir album) :=
      Except.ok.inj (hp.symm.trans hfm1)
    have hstab : ∀ (u : String) (r : MediaRec),
        select_media_item st.media u = some r →
        select_media_item st1.media u = some r := by
      intro u r h
      have hs := d_select_stable beh u r tasks1 st h
      rw [hd1] at hs
      exact hs
    have hwf2 := process_ok_wf sanitize st.media st1.media dir album hstab
      items tasks1 hp
    have hfm2 := process_eq_filterMap sanitize st1.media dir album items hwf2
    have hmatch1 : ∀ e ∈ tasks1, ∀ r,
        select_media_item st.media e.uuid = some r → e.path = r.path := by
      intro e he r hsel
      rw [htasks1] at he
      obtain ⟨item, hitem, ht⟩ := List.mem_filterMap.mp he
      exact (taskOf_some_facts sanitize st.media dir album item e ht).2 r hsel
    have hnd1 : (tasks1.map Entry.uuid).Nodup := by
      rw [htasks1]
      exact List.Nodup.sublist
        (filterMap_taskOf_uuid_sublist sanitize st.media dir album items) hids
    have hinv1 : PipeInv st1 := by
      obtain ⟨hP, _⟩ := d_pipeinv beh tasks1 st hinv hnd1 hmatch1
      rw [hd1] at hP
      exact hP
    have hpaths : ∀ e2 ∈ items.filterMap (taskOf sanitize st1.media dir album),
        fsHas st1.fs e2.path = true := by
      intro e2 he2
      obtain ⟨item, hitem, ht2⟩ := List.mem_filterMap.mp he2
      obtain ⟨hid2, hrec2⟩ :=
        taskOf_some_facts sanitize st1.media dir album item e2 ht2
      cases hsel2 : select_media_item st1.media e2.uuid with
      | some r =>
        rw [hrec2 r hsel2]
        exact hinv1.2 r (List.mem_of_find?_eq_some hsel2)
      | none =>
        have hsel1 : select_media_item st.media e2.uuid = none := by
          cases hs : select_media_item st.media e2.uuid with
          | none => rfl
          | some r0 => exact absurd (hstab _ _ hs) (by rw [hsel2]; simp)
        have hteq := taskOf_select_none_eq sanitize st.media st1.media dir album
          item e2.uuid hid2 hsel1 hsel2
        have he1 : e2 ∈ tasks1 := by
          rw [htasks1]
          exact List.mem_filterMap.mpr ⟨item, hitem, by rw [hteq]; exact ht2⟩
        have hb := d_benign_paths beh tasks1 st
          (fun e _ => hben e) e2 he1
        rw [hd1] at hb
        exact hb
    refine ⟨items.filterMap (taskOf sanitize st1.media dir album), ?_⟩
    rw [runCollection, hfm2]
    have hall := d_all_guard beh2
      (items.filterMap (taskOf sanitize st1.media dir album)) st1 hpaths
    simp only [Except.map]
    rw [hall]

/-- Witness for C4: the concrete guard case of the worker. -/
theorem c4_idempotent_witness :
    download_media_item
      (Beh.mk FetchBeh.raises true (MetaBeh.mk false false true false true true))
      (St.mk [("d/f.jpg", 1)] [MediaRec.mk "i" "d/f.jpg" none] 1)
      (Entry.mk "i" none "u=d" "d/f.jpg" none (some "t"))
      = (St.mk [("d/f.jpg", 1)] [MediaRec.mk "i" "d/f.jpg" none] 1,
         Outcome.alreadyPresent, 0) :=
  (c4_idempotent (fun s => s)
    (fun _ => Beh.mk (FetchBeh.status 200) false
      (MetaBeh.mk true true false true false false))
    [RawItem.mk (some "i") (some "f.jpg") (some "image/jpeg") (some "u") none (some "t")]
    "d" none (St.mk [] [] 0)
    (St.mk [("d/f.jpg", 1)] [MediaRec.mk "i" "d/f.jpg" none] 1)
    [Outcome.downloaded "i" "d/f.jpg" none] 1
    (by constructor <;> decide) (by decide)
    (fun _ => ⟨rfl, rfl⟩) rfl).1
    (Beh.mk FetchBeh.raises true (MetaBeh.mk false false true false true true))
    (St.mk [("d/f.jpg", 1)] [MediaRec.mk "i" "d/f.jpg" none] 1)
    (Entry.mk "i" none "u=d" "d/f.jpg" none (some "t"))
    (by decide)

end GParch
